import Mathlib

/-!
Verification of the synchronization/cache engine implemented in
`src/app/api/lotto/route.ts` of the lotto-frequency-app repository.

The TypeScript is embedded shallowly:

* upstream HTTP behaviour is an explicit oracle parameter (one raw
  response per attempt, or one `fetchDraw`-level result per draw number);
* promises become pure functions, a rejected promise becomes the
  `Except.error` case (the only error that can cross `fetchDraw` is
  `HtmlResponseError`, so the error payload is `Unit`);
* the JS `Map` becomes an insertion-ordered association list;
* loops become fuel-indexed structural recursions, where the fuel passed
  at each call site strictly dominates the loop variant, so the
  fuel-exhaustion branch is unreachable (for the retry loop the fuel is
  exactly the remaining attempt budget of the source loop);
* the six concurrent range-fetch workers are sequentialised: in the JS
  event loop each worker claims a distinct draw number synchronously
  before its first await, so every number in the range is fetched exactly
  once and only the completion order can vary; the claims are modelled in
  increasing order (only membership in `draws`/`missing` is proved, never
  the order of `missing`).

The single-flight behaviour of the coordinator depends on the event-loop
interleaving of concurrent `GET` callers and is modelled separately as a
labelled transition system in the `SingleFlight` namespace at the end of
the file.
-/

/-- One lottery draw record (`type Draw` in route.ts).  `drwNo` is
`Number(data.drwNo)`, which the source never validates and which may be
NaN; NaN is modelled as `none`.  The six winning numbers and the bonus
are produced only after an explicit NaN check, hence plain `Int`. -/
structure Draw where
  drwNo : Option Int
  drwNoDate : String
  numbers : List Int
  bonus : Int
deriving DecidableEq, Repr

/-- The process-wide cache (`type Cache` in route.ts).  `missing` is
attached dynamically in the source
(`(cache as Cache & { missing?: number[] }).missing = missing`), hence an
`Option`; `inFlight` is a concurrency artefact and lives only in the
`SingleFlight` model at the end of the file. -/
structure CacheState where
  updatedAt : Nat
  latest : Nat
  draws : List (Nat × Draw)
  missing : Option (List Nat)
  blockedUntil : Option Nat
deriving DecidableEq, Repr

def CACHE_TTL_MS : Nat := 1000 * 60 * 60 * 12

def MAX_DRAW_GUESS : Nat := 10000

def CONCURRENCY : Nat := 6

def RETRIES : Nat := 2

def BLOCK_TTL_MS : Nat := 1000 * 60 * 15

/-- The lazily constructed initial cache of `getCache()`. -/
def initCache : CacheState :=
  { updatedAt := 0, latest := 0, draws := [], missing := none, blockedUntil := none }

/-- One upstream JSON payload after JS field access and `Number(...)`
coercion: a field that is absent or does not coerce to a number becomes
NaN, modelled as `none`.  `drwNoDate` is kept as the result of
`String(data.drwNoDate)`. -/
structure Payload where
  returnValue : String
  drwNo : Option Int
  drwNoDate : String
  drwtNo1 : Option Int
  drwtNo2 : Option Int
  drwtNo3 : Option Int
  drwtNo4 : Option Int
  drwtNo5 : Option Int
  drwtNo6 : Option Int
  bnusNo : Option Int
deriving DecidableEq, Repr

/-- Classification of the body of a 2xx upstream response: trimmed body
starting with `<`, a body that fails `JSON.parse`, or a parsed object. -/
inductive BodyKind
  | html
  | invalid
  | json (p : Payload)
deriving DecidableEq, Repr

/-- One raw upstream interaction as observed by `fetchJson`: the fetch
aborts on the timeout, the response has a non-2xx status, or a body is
read. -/
inductive RawResp
  | timeout
  | httpError
  | body (k : BodyKind)
deriving DecidableEq, Repr

/-- The two error classes that `fetchDraw` distinguishes: the dedicated
`HtmlResponseError` versus every other thrown error (abort/timeout,
`HTTP <status>`, `Non-JSON response`). -/
inductive FetchError
  | html
  | generic
deriving DecidableEq, Repr

deriving instance DecidableEq for Except

/-- `fetchJson`: timeout abort and non-2xx status throw generic errors;
a 2xx body starting with `<` throws `HtmlResponseError`; a 2xx body that
does not parse as JSON throws a generic error; otherwise the parsed
payload is returned.  (The HTML check runs after the `response.ok` check
and before parsing, exactly as in the source.) -/
def fetchJson : RawResp → Except FetchError Payload
  | .timeout => .error .generic
  | .httpError => .error .generic
  | .body .html => .error .html
  | .body .invalid => .error .generic
  | .body (.json p) => .ok p

/-- `fetchDrawOnce`: a payload without `returnValue === "success"` is
`null`; a NaN among the six winning numbers or the bonus is `null`;
otherwise the `Draw` record is built.  `drwNo` is passed through without
any check. -/
def fetchDrawOnce (resp : RawResp) : Except FetchError (Option Draw) :=
  match fetchJson resp with
  | .error e => .error e
  | .ok data =>
    if data.returnValue ≠ "success" then .ok none
    else
      match data.drwtNo1, data.drwtNo2, data.drwtNo3, data.drwtNo4,
            data.drwtNo5, data.drwtNo6, data.bnusNo with
      | some n1, some n2, some n3, some n4, some n5, some n6, some bo =>
          .ok (some { drwNo := data.drwNo, drwNoDate := data.drwNoDate,
                      numbers := [n1, n2, n3, n4, n5, n6], bonus := bo })
      | _, _, _, _, _, _, _ => .ok none

/-- The retry loop of `fetchDraw`, from attempt `attempt` with
`fuel = RETRIES + 1 - attempt` attempts left (the fuel-0 case is exactly
the loop exiting with the budget exhausted: warn and resolve to `null`).
Besides the result it returns the number of `fetchDrawOnce` calls made
and the list of backoff delays awaited (`250 * (attempt + 1)` ms after
each caught transient error, including the last one). -/
def fetchDrawGo (upstream : Nat → RawResp) (attempt : Nat) :
    Nat → Except Unit (Option Draw) × Nat × List Nat
  | 0 => (.ok none, 0, [])
  | fuel + 1 =>
    match fetchDrawOnce (upstream attempt) with
    | .ok r => (.ok r, 1, [])
    | .error .html => (.error (), 1, [])
    | .error .generic =>
      let rest := fetchDrawGo upstream (attempt + 1) fuel
      (rest.1, rest.2.1 + 1, 250 * (attempt + 1) :: rest.2.2)

/-- `fetchDraw(no)`, given the raw responses of the successive attempts
for that draw number.  Result, attempt count, and backoff trace. -/
def fetchDraw (upstream : Nat → RawResp) :
    Except Unit (Option Draw) × Nat × List Nat :=
  fetchDrawGo upstream 0 (RETRIES + 1)

/-- The per-draw-number interface consumed by the locator, the range
fetcher and the coordinator: the result component of `fetchDraw no`,
with each draw number seeing its own attempt-indexed raw responses. -/
def drawOracle (upstream : Nat → Nat → RawResp) (no : Nat) :
    Except Unit (Option Draw) :=
  (fetchDraw (upstream no)).1

/-- The downward binary search of `findLatestDraw` (taken when the probe
does not exist): `low = 1, high = probe; while (low <= high)` halving on
`fetchDraw(mid)`.  Fuel dominates the variant `high + 1 - low`, which
strictly decreases every iteration, so the fuel-0 branch is unreachable
at the call site below. -/
def searchDownGo (fd : Nat → Except Unit (Option Draw)) :
    Nat → Nat → Nat → Except Unit Nat
  | 0, _, high => .ok high
  | fuel + 1, low, high =>
    if low ≤ high then
      match fd ((low + high) / 2) with
      | .error e => .error e
      | .ok (some _) => searchDownGo fd fuel ((low + high) / 2 + 1) high
      | .ok none => searchDownGo fd fuel low ((low + high) / 2 - 1)
    else .ok high

/-- The doubling loop of `findLatestDraw` (taken when the probe exists):
`while (high <= MAX_DRAW_GUESS)` probe `high`; on success set
`low = high; high = min(high * 2, MAX_DRAW_GUESS)` and return `low`
directly once it reaches the ceiling; on a missing probe break with the
current bracketing interval.  `inl (low, high)` is the `break` with the
bracket, `inr n` the direct `return`. -/
def growGo (fd : Nat → Except Unit (Option Draw)) :
    Nat → Nat → Nat → Except Unit ((Nat × Nat) ⊕ Nat)
  | 0, low, high => .ok (.inl (low, high))
  | fuel + 1, low, high =>
    if high ≤ MAX_DRAW_GUESS then
      match fd high with
      | .error e => .error e
      | .ok (some _) =>
        if high = MAX_DRAW_GUESS then .ok (.inr high)
        else growGo fd fuel high (min (high * 2) MAX_DRAW_GUESS)
      | .ok none => .ok (.inl (low, high))
    else .ok (.inl (low, high))

/-- The final binary search of `findLatestDraw`:
`while (low + 1 < high)` with `low := mid` on an existing probe and
`high := mid` otherwise, returning `low`. -/
def bsearchGo (fd : Nat → Except Unit (Option Draw)) :
    Nat → Nat → Nat → Except Unit Nat
  | 0, low, _ => .ok low
  | fuel + 1, low, high =>
    if low + 1 < high then
      match fd ((low + high) / 2) with
      | .error e => .error e
      | .ok (some _) => bsearchGo fd fuel ((low + high) / 2) high
      | .ok none => bsearchGo fd fuel low ((low + high) / 2)
    else .ok low

/-- `findLatestDraw()`: probe at `cache.latest` when positive, else 1100;
if the probe is missing, binary-search downward over `[1, probe]` and
return `Math.max(1, high)`; if it exists, grow an upper bound by capped
doubling and binary-search the bracket.  The source reads `cache.latest`
from the shared cache; here it is the `cacheLatest` parameter.  Any
`HtmlResponseError` thrown by `fetchDraw` propagates unmodified. -/
def findLatestDraw (fd : Nat → Except Unit (Option Draw)) (cacheLatest : Nat) :
    Except Unit Nat :=
  let probe := if 0 < cacheLatest then cacheLatest else 1100
  match fd probe with
  | .error e => .error e
  | .ok none =>
    match searchDownGo fd (probe + 2) 1 probe with
    | .error e => .error e
    | .ok h => .ok (max 1 h)
  | .ok (some _) =>
    match growGo fd (MAX_DRAW_GUESS + 1) probe (min (probe * 2) MAX_DRAW_GUESS) with
    | .error e => .error e
    | .ok (.inr n) => .ok n
    | .ok (.inl (low, high)) => bsearchGo fd (MAX_DRAW_GUESS + 1) low high

/-- JS `Map.set` on the insertion-ordered association list: replace an
existing key in place, otherwise append. -/
def mapSet : List (Nat × Draw) → Nat → Draw → List (Nat × Draw)
  | [], k, v => [(k, v)]
  | (k', v') :: rest, k, v =>
    if k' = k then (k, v) :: rest else (k', v') :: mapSet rest k v

/-- JS `Map.get`. -/
def mapGet : List (Nat × Draw) → Nat → Option Draw
  | [], _ => none
  | (k', v') :: rest, k => if k' = k then some v' else mapGet rest k

/-- The worker loop of `fetchRange`, sequentialised (see the header
comment): process `left` remaining numbers starting at `no`, writing a
fetched draw into the map and appending an unfetchable number to
`missing`.  An `HtmlResponseError` makes `Promise.all` reject, aborting
the whole range fetch; the partial writes made before such an abort are
not modelled, because an aborted sync rejects before publishing
`latest`/`missing` and no claim reads the cache after a rejected sync. -/
def fetchRangeGo (fd : Nat → Except Unit (Option Draw)) :
    Nat → Nat → List (Nat × Draw) → List Nat →
    Except Unit (List (Nat × Draw) × List Nat)
  | 0, _, draws, missing => .ok (draws, missing)
  | left + 1, no, draws, missing =>
    match fd no with
    | .error e => .error e
    | .ok (some d) => fetchRangeGo fd left (no + 1) (mapSet draws no d) missing
    | .ok none => fetchRangeGo fd left (no + 1) draws (missing ++ [no])

/-- `fetchRange(start, last, cache, missing)` over the inclusive range
`[start, last]`. -/
def fetchRange (fd : Nat → Except Unit (Option Draw)) (start last : Nat)
    (draws : List (Nat × Draw)) (missing : List Nat) :
    Except Unit (List (Nat × Draw) × List Nat) :=
  fetchRangeGo fd (last + 1 - start) start draws missing

/-- The truthiness test `cache.blockedUntil && Date.now() < cache.blockedUntil`
(a `blockedUntil` of `0` would be falsy, hence the `b ≠ 0` conjunct). -/
def isBlocked (c : CacheState) (now : Nat) : Bool :=
  match c.blockedUntil with
  | none => false
  | some b => decide (b ≠ 0 ∧ now < b)

/-- One run of the sync body of `updateCache` (the async IIFE assigned to
`cache.inFlight`), with `Date.now()` frozen to `now` for the run:
skip everything but `updatedAt` while blocked; absorb an
`HtmlResponseError` from the locator into `blockedUntil = now + BLOCK_TTL_MS`
(any other error would be rethrown, but `fetchDraw` can only throw
`HtmlResponseError`, which is why the error type is `Unit`); otherwise
fetch `[latest+1 , newLatest]` (from 1 on the first sync) — an error
there escapes and rejects the sync, because only the locator call sits in
the `try` — then publish `latest`, `updatedAt` and the fresh `missing`
list. -/
def updateCache (fd : Nat → Except Unit (Option Draw)) (now : Nat)
    (c : CacheState) : Except Unit CacheState :=
  if isBlocked c now then .ok { c with updatedAt := now }
  else
    match findLatestDraw fd c.latest with
    | .error _ =>
      .ok { c with blockedUntil := some (now + BLOCK_TTL_MS), updatedAt := now }
    | .ok latest =>
      let start := if 0 < c.latest then c.latest + 1 else 1
      if start ≤ latest then
        match fetchRange fd start latest c.draws [] with
        | .error e => .error e
        | .ok (draws', missing') =>
          .ok { c with latest := latest, updatedAt := now,
                       draws := draws', missing := some missing' }
      else
        .ok { c with latest := latest, updatedAt := now, missing := some [] }

/-- One `{num, count}` entry of the frequency table. -/
structure CountEntry where
  num : Nat
  count : Nat
deriving DecidableEq, Repr

/-- `counts[i].count += 1` on the list, by index.  (JS would throw on an
index outside `[0, 44]`; the embedding leaves the list unchanged there —
no claim evaluates the ranking builder on an out-of-range number.) -/
def bumpAt : List CountEntry → Nat → List CountEntry
  | [], _ => []
  | e :: rest, 0 => { e with count := e.count + 1 } :: rest
  | e :: rest, i + 1 => e :: bumpAt rest i

/-- `counts[num - 1].count += 1` for a (possibly out-of-range) winning
number. -/
def bumpNum (l : List CountEntry) (n : Int) : List CountEntry :=
  if n < 1 then l else bumpAt l (n - 1).toNat

/-- The per-draw pass of `buildRanking`: bump the six numbers, then the
bonus when `includeBonus` is set. -/
def applyDraw (includeBonus : Bool) (l : List CountEntry) (d : Draw) :
    List CountEntry :=
  let l1 := d.numbers.foldl bumpNum l
  if includeBonus then bumpNum l1 d.bonus else l1

/-- `Array.from({length: 45}, (_, i) => ({num: i + 1, count: 0}))`. -/
def baseCounts : List CountEntry := (List.range 45).map fun i => ⟨i + 1, 0⟩

/-- The sort comparator `(a, b) => b.count - a.count || a.num - b.num`
read as "`a` sorts no later than `b`": count descending, ties by number
ascending. -/
def entryLE (a b : CountEntry) : Prop :=
  b.count < a.count ∨ (a.count = b.count ∧ a.num ≤ b.num)

instance : DecidablePred fun p : CountEntry × CountEntry => entryLE p.1 p.2 :=
  fun _ => by unfold entryLE; infer_instance

instance (a b : CountEntry) : Decidable (entryLE a b) := by
  unfold entryLE; infer_instance

/-- Insertion step of the sort. -/
def insertEntry (e : CountEntry) : List CountEntry → List CountEntry
  | [] => [e]
  | x :: rest => if entryLE e x then e :: x :: rest else x :: insertEntry e rest

/-- `[...counts].sort(comparator)`: all `num` fields are pairwise
distinct here, so the comparator is a strict total order on the entries,
the sorted permutation is unique, and the (stable, comparator-correct)
JS sort and this insertion sort compute the same list. -/
def sortEntries (l : List CountEntry) : List CountEntry := l.foldr insertEntry []

/-- The record returned by `buildRanking`. -/
structure RankingResult where
  counts : List CountEntry
  ranking : List CountEntry
  top6 : List Nat
  next6 : List Nat
  top18 : List Nat
  hasData : Bool
deriving DecidableEq, Repr

/-- `buildRanking(draws, includeBonus)`: fold the draws (in `Map`
insertion order) over the 45 zero entries, sort a copy, and derive the
slices; `hasData = (ranking[0]?.count ?? 0) > 0`. -/
def buildRanking (draws : List Draw) (includeBonus : Bool) : RankingResult :=
  let counts := draws.foldl (applyDraw includeBonus) baseCounts
  let ranking := sortEntries counts
  let maxCount := (ranking.head?.map CountEntry.count).getD 0
  { counts := counts
    ranking := ranking
    top6 := (ranking.take 6).map CountEntry.num
    next6 := ((ranking.drop 6).take 6).map CountEntry.num
    top18 := (ranking.take 18).map CountEntry.num
    hasData := decide (0 < maxCount) }

/-- The JSON body served by `GET` (`updatedAt` is kept as the raw
millisecond timestamp rather than its ISO rendering; the constant
`source: "dhlottery"` field is omitted). -/
structure ApiResponse where
  updatedAt : Nat
  latestDraw : Nat
  latestDate : Option String
  totalDraws : Nat
  includeBonus : Bool
  counts : List CountEntry
  ranking : List CountEntry
  top6 : List Nat
  next6 : List Nat
  top18 : List Nat
  hasData : Bool
  missingDraws : List Nat
  apiBlockedUntil : Option Nat
deriving DecidableEq, Repr

/-- The response literal of `GET` built from the ready cache:
`latestDate = draws.get(latest)?.drwNoDate ?? null`,
`missingDraws = readyCache.missing ?? []`,
`apiBlockedUntil = readyCache.blockedUntil ?? null`. -/
def respOf (c : CacheState) (includeBonus : Bool) : ApiResponse :=
  let r := buildRanking (c.draws.map Prod.snd) includeBonus
  { updatedAt := c.updatedAt
    latestDraw := c.latest
    latestDate := (mapGet c.draws c.latest).map Draw.drwNoDate
    totalDraws := c.draws.length
    includeBonus := includeBonus
    counts := r.counts
    ranking := r.ranking
    top6 := r.top6
    next6 := r.next6
    top18 := r.top18
    hasData := r.hasData
    missingDraws := c.missing.getD []
    apiBlockedUntil := c.blockedUntil }

/-- `GET`: serve the cache directly while `Date.now() - updatedAt` is
within the TTL, otherwise `await updateCache()` first — a rejected sync
escapes as an error.  Returns the response together with the cache state
it was built from.  (`Nat` subtraction truncates at 0 exactly where the
JS difference would be negative, and both compare below the TTL the same
way.) -/
def GET (fd : Nat → Except Unit (Option Draw)) (now : Nat)
    (includeBonus : Bool) (c : CacheState) :
    Except Unit (ApiResponse × CacheState) :=
  if now - c.updatedAt < CACHE_TTL_MS then .ok (respOf c includeBonus, c)
  else
    match updateCache fd now c with
    | .error e => .error e
    | .ok rc => .ok (respOf rc includeBonus, rc)

/-! ### The locator on a total existence predicate (C2) -/

/-- A dummy draw used by existence oracles in counterexamples and
witnesses. -/
def probeDraw : Draw :=
  { drwNo := some 1, drwNoDate := "", numbers := [1, 2, 3, 4, 5, 6], bonus := 7 }

/-- The total existence predicate `exists(n) = n ≤ N` as a `fetchDraw`
oracle: draws `1..N` exist, everything above is not found, and no request
errors. -/
def exOracle (N : Nat) : Nat → Except Unit (Option Draw) :=
  fun n => .ok (if n ≤ N then some probeDraw else none)

theorem searchDownGo_exOracle (N : Nat) :
    ∀ fuel low high, 1 ≤ low → low ≤ N + 1 → N ≤ high → high + 1 - low < fuel →
      searchDownGo (exOracle N) fuel low high = Except.ok N := by
  intro fuel
  induction fuel with
  | zero => intro low high _ _ _ h4; omega
  | succ f ih =>
    intro low high h1 h2 h3 h4
    by_cases hlh : low ≤ high
    · by_cases hm : (low + high) / 2 ≤ N
      · have hfd : exOracle N ((low + high) / 2) = .ok (some probeDraw) := by
          simp [exOracle, hm]
        simp only [searchDownGo, if_pos hlh, hfd]
        exact ih _ _ (by omega) (by omega) h3 (by omega)
      · have hfd : exOracle N ((low + high) / 2) = .ok none := by
          simp [exOracle, hm]
        simp only [searchDownGo, if_pos hlh, hfd]
        exact ih _ _ h1 h2 (by omega) (by omega)
    · simp only [searchDownGo, if_neg hlh]
      have : high = N := by omega
      rw [this]

theorem growGo_exOracle (N : Nat) (hN : N ≤ MAX_DRAW_GUESS) :
    ∀ fuel low high, low ≤ N → 1 ≤ high → high ≤ MAX_DRAW_GUESS → low ≤ high →
      (low < high ∨ high = MAX_DRAW_GUESS) → MAX_DRAW_GUESS - low < fuel →
      growGo (exOracle N) fuel low high = .ok (.inr N) ∨
      ∃ l h, growGo (exOracle N) fuel low high = .ok (.inl (l, h)) ∧
        l ≤ N ∧ N < h ∧ h ≤ MAX_DRAW_GUESS := by
  have hM : 1 ≤ MAX_DRAW_GUESS := by decide
  intro fuel
  induction fuel with
  | zero => intro low high _ _ _ _ _ h6; omega
  | succ f ih =>
    intro low high h1 h2 h3 h4 h5 h6
    by_cases hex : high ≤ N
    · have hfd : exOracle N high = .ok (some probeDraw) := by simp [exOracle, hex]
      by_cases hmax : high = MAX_DRAW_GUESS
      · left
        have hhn : high = N := by omega
        simp only [growGo, if_pos h3, hfd, if_pos hmax]
        rw [hhn]
      · have hrec := ih high (min (high * 2) MAX_DRAW_GUESS) hex (by omega)
          (by omega) (by omega) (by omega) (by omega)
        simp only [growGo, if_pos h3, hfd, if_neg hmax]
        exact hrec
    · have hfd : exOracle N high = .ok none := by simp [exOracle, hex]
      right
      refine ⟨low, high, ?_, h1, by omega, h3⟩
      simp only [growGo, if_pos h3, hfd]

theorem bsearchGo_exOracle (N : Nat) :
    ∀ fuel low high, low ≤ N → N < high → high - low ≤ fuel →
      bsearchGo (exOracle N) fuel low high = .ok N := by
  intro fuel
  induction fuel with
  | zero => intro low high h1 h2 h3; omega
  | succ f ih =>
    intro low high h1 h2 h3
    by_cases hlh : low + 1 < high
    · by_cases hm : (low + high) / 2 ≤ N
      · have hfd : exOracle N ((low + high) / 2) = .ok (some probeDraw) := by
          simp [exOracle, hm]
        simp only [bsearchGo, if_pos hlh, hfd]
        exact ih _ _ hm h2 (by omega)
      · have hfd : exOracle N ((low + high) / 2) = .ok none := by
          simp [exOracle, hm]
        simp only [bsearchGo, if_pos hlh, hfd]
        exact ih _ _ h1 (by omega) (by omega)
    · simp only [bsearchGo, if_neg hlh]
      have : low = N := by omega
      rw [this]

/-- C2: for every total existence predicate `exists(n) = n ≤ N` with
`1 ≤ N ≤ MAX_DRAW_GUESS` and every cache seed `≤ MAX_DRAW_GUESS` (probe
`seed` when positive, else the default 1100), `findLatestDraw` returns
exactly `N`: by downward binary search when the probe is missing, and by
capped doubling followed by binary search of the bracket when it
exists. -/
theorem findLatestDraw_locates (N seed : Nat) (h1 : 1 ≤ N)
    (h2 : N ≤ MAX_DRAW_GUESS) (h3 : seed ≤ MAX_DRAW_GUESS) :
    findLatestDraw (exOracle N) seed = .ok N := by
  have hM : 1 ≤ MAX_DRAW_GUESS := by decide
  have hM1100 : 1100 ≤ MAX_DRAW_GUESS := by decide
  simp only [findLatestDraw]
  set probe := if 0 < seed then seed else 1100 with hprobe
  have hp1 : 1 ≤ probe := by rw [hprobe]; split <;> omega
  have hp2 : probe ≤ MAX_DRAW_GUESS := by rw [hprobe]; split <;> omega
  by_cases hex : probe ≤ N
  · have hfd : exOracle N probe = .ok (some probeDraw) := by simp [exOracle, hex]
    simp only [hfd]
    have hg := growGo_exOracle N h2 (MAX_DRAW_GUESS + 1) probe
      (min (probe * 2) MAX_DRAW_GUESS) hex (by omega) (by omega) (by omega)
      (by omega) (by omega)
    rcases hg with hg | ⟨l, h, hg, hl, hh, hhm⟩
    · simp only [hg]
    · simp only [hg]
      exact bsearchGo_exOracle N (MAX_DRAW_GUESS + 1) l h hl hh (by omega)
  · have hfd : exOracle N probe = .ok none := by simp [exOracle, hex]
    simp only [hfd]
    rw [searchDownGo_exOracle N (probe + 2) 1 probe (by omega) (by omega)
      (by omega) (by omega)]
    have hmax : max 1 N = N := by omega
    simp only [hmax]

theorem findLatestDraw_locates_witness :
    findLatestDraw (exOracle 500) 400 = .ok 500 :=
  findLatestDraw_locates 500 400 (by decide) (by decide) (by decide)

/-! ### Coordinator blocked paths (C5, C6) -/

/-- An oracle whose every response is the HTML block page, so every
`fetchDraw` raises `HtmlResponseError` at its first attempt. -/
def anomalousOracle : Nat → Except Unit (Option Draw) := fun _ => .error ()

/-- C5: if the locator raises `AnomalousResponseError` during a sync that
is not skipped by an active block, the coordinator sets
`blockedUntil = now + BLOCK_TTL_MS`, refreshes `updatedAt`, leaves
`latest`, `draws` and `missing` unchanged, and returns the cache without
raising. -/
theorem updateCache_anomalous_blocks (fd : Nat → Except Unit (Option Draw))
    (now : Nat) (c : CacheState) (hb : isBlocked c now = false)
    (h : findLatestDraw fd c.latest = .error ()) :
    updateCache fd now c =
      .ok { c with blockedUntil := some (now + BLOCK_TTL_MS), updatedAt := now } := by
  simp [updateCache, hb, h]

theorem updateCache_anomalous_blocks_witness :
    updateCache anomalousOracle 0 initCache =
      .ok { initCache with blockedUntil := some (0 + BLOCK_TTL_MS), updatedAt := 0 } :=
  updateCache_anomalous_blocks anomalousOracle 0 initCache (by decide) (by decide)

/-- C6: while `blockedUntil` is set (and truthy) and still in the future,
a sync that starts consults the upstream oracle nowhere — the result is
the same for every oracle `fd` — and modifies no cache field other than
`updatedAt`: `latest`, `draws`, `missing` and `blockedUntil` itself are
returned unchanged. -/
theorem updateCache_blocked_frame (fd : Nat → Except Unit (Option Draw))
    (now : Nat) (c : CacheState) (b : Nat) (hset : c.blockedUntil = some b)
    (hb0 : b ≠ 0) (hfut : now < b) :
    updateCache fd now c = .ok { c with updatedAt := now } := by
  have hb : isBlocked c now = true := by simp [isBlocked, hset, hb0, hfut]
  simp [updateCache, hb]

theorem updateCache_blocked_frame_witness :
    updateCache anomalousOracle 5 { initCache with blockedUntil := some 10 } =
      .ok { initCache with blockedUntil := some 10, updatedAt := 5 } :=
  updateCache_blocked_frame anomalousOracle 5
    { initCache with blockedUntil := some 10 } 10 rfl (by decide) (by decide)

/-! ### The retry policy of the draw fetcher (C7) -/

/-- The backoff delays awaited after `j` failed attempts:
`250, 500, …, 250 * j` ms. -/
def backoffs (j : Nat) : List Nat := (List.range' 1 j).map fun k => 250 * k

theorem fetchDrawGo_all_transient (upstream : Nat → RawResp) :
    ∀ fuel attempt,
      (∀ i, attempt ≤ i → i < attempt + fuel →
        fetchDrawOnce (upstream i) = .error .generic) →
      fetchDrawGo upstream attempt fuel =
        (.ok none, fuel, (List.range' (attempt + 1) fuel).map fun k => 250 * k) := by
  intro fuel
  induction fuel with
  | zero => intro attempt _; simp [fetchDrawGo]
  | succ f ih =>
    intro attempt hall
    have h0 : fetchDrawOnce (upstream attempt) = .error .generic :=
      hall attempt le_rfl (by omega)
    simp only [fetchDrawGo, h0]
    rw [ih (attempt + 1) (fun i hi1 hi2 => hall i (by omega) (by omega))]
    simp [List.range'_succ]

theorem fetchDrawGo_decides (upstream : Nat → RawResp) :
    ∀ fuel attempt j, attempt ≤ j → j < attempt + fuel →
      (∀ i, attempt ≤ i → i < j → fetchDrawOnce (upstream i) = .error .generic) →
      (∀ r, fetchDrawOnce (upstream j) = .ok r →
        fetchDrawGo upstream attempt fuel =
          (.ok r, j + 1 - attempt,
            (List.range' (attempt + 1) (j - attempt)).map fun k => 250 * k)) ∧
      (fetchDrawOnce (upstream j) = .error .html →
        fetchDrawGo upstream attempt fuel =
          (.error (), j + 1 - attempt,
            (List.range' (attempt + 1) (j - attempt)).map fun k => 250 * k)) := by
  intro fuel
  induction fuel with
  | zero => intro attempt j h1 h2; omega
  | succ f ih =>
    intro attempt j h1 h2 hpre
    by_cases haj : attempt = j
    · subst haj
      constructor
      · intro r hr; simp [fetchDrawGo, hr]
      · intro hr; simp [fetchDrawGo, hr]
    · have hja : attempt < j := by omega
      have htrans : fetchDrawOnce (upstream attempt) = .error .generic :=
        hpre attempt le_rfl hja
      have hih := ih (attempt + 1) j (by omega) (by omega)
        (fun i hi1 hi2 => hpre i (by omega) hi2)
      have hrange : List.range' (attempt + 1) (j - attempt) =
          (attempt + 1) :: List.range' (attempt + 1 + 1) (j - (attempt + 1)) := by
        have hja' : j - attempt = (j - (attempt + 1)) + 1 := by omega
        rw [hja', List.range'_succ]
      have harith : j + 1 - (attempt + 1) + 1 = j + 1 - attempt := by omega
      constructor
      · intro r hr
        simp only [fetchDrawGo, htrans]
        rw [hih.1 r hr, hrange, List.map_cons, harith]
      · intro hr
        simp only [fetchDrawGo, htrans]
        rw [hih.2 hr, hrange, List.map_cons, harith]

/-- C7: for every upstream behaviour, `fetchDraw` (i) resolves to
`NotFound` after exhausting all `RETRIES + 1` attempts on transient
errors (timeout, HTTP error, malformed body), awaiting the linearly
increasing backoffs `250, 500, 750` ms; (ii) returns the first decisive
`fetchDrawOnce` outcome (a `Draw` or `NotFound`) reached after `j`
leading transient failures, having made exactly `j + 1` attempts; and
(iii) propagates `HtmlResponseError` (`AnomalousResponseError`) the
moment it occurs, with no further attempts. -/
theorem fetchDraw_policy :
    (∀ upstream : Nat → RawResp,
      (∀ i, i ≤ RETRIES → fetchDrawOnce (upstream i) = .error .generic) →
      fetchDraw upstream = (.ok none, RETRIES + 1, backoffs (RETRIES + 1))) ∧
    (∀ upstream : Nat → RawResp, ∀ j r, j ≤ RETRIES →
      (∀ i, i < j → fetchDrawOnce (upstream i) = .error .generic) →
      fetchDrawOnce (upstream j) = .ok r →
      fetchDraw upstream = (.ok r, j + 1, backoffs j)) ∧
    (∀ upstream : Nat → RawResp, ∀ j, j ≤ RETRIES →
      (∀ i, i < j → fetchDrawOnce (upstream i) = .error .generic) →
      fetchDrawOnce (upstream j) = .error .html →
      fetchDraw upstream = (.error (), j + 1, backoffs j)) := by
  refine ⟨?_, ?_, ?_⟩
  · intro up hall
    have h := fetchDrawGo_all_transient up (RETRIES + 1) 0
      (fun i _ h2 => hall i (by omega))
    simpa [fetchDraw, backoffs] using h
  · intro up j r hj hpre hr
    have h := (fetchDrawGo_decides up (RETRIES + 1) 0 j (by omega) (by omega)
      (fun i _ h2 => hpre i h2)).1 r hr
    simpa [fetchDraw, backoffs] using h
  · intro up j hj hpre hr
    have h := (fetchDrawGo_decides up (RETRIES + 1) 0 j (by omega) (by omega)
      (fun i _ h2 => hpre i h2)).2 hr
    simpa [fetchDraw, backoffs] using h

theorem fetchDraw_policy_witness :
    fetchDraw (fun _ => RawResp.timeout) =
      (.ok none, RETRIES + 1, backoffs (RETRIES + 1)) :=
  fetchDraw_policy.1 (fun _ => RawResp.timeout)
    (fun _ _ => show fetchDrawOnce RawResp.timeout = .error .generic by decide)

/-! ### Range fetching and the post-sync accounting invariant (C1) -/

theorem mapGet_mapSet_self (l : List (Nat × Draw)) (k : Nat) (v : Draw) :
    mapGet (mapSet l k v) k = some v := by
  induction l with
  | nil => simp [mapSet, mapGet]
  | cons hd tl ih =>
    obtain ⟨k', v'⟩ := hd
    by_cases hk : k' = k
    · simp [mapSet, mapGet, hk]
    · simp [mapSet, mapGet, hk, ih]

theorem mapGet_mapSet_ne (l : List (Nat × Draw)) (k k' : Nat) (v : Draw)
    (h : k' ≠ k) : mapGet (mapSet l k v) k' = mapGet l k' := by
  have h' : k ≠ k' := fun e => h e.symm
  induction l with
  | nil => simp [mapSet, mapGet, h']
  | cons hd tl ih =>
    obtain ⟨k'', v''⟩ := hd
    by_cases hk : k'' = k
    · subst hk
      simp [mapSet, mapGet, h']
    · simp [mapSet, mapGet, hk, ih]

theorem fetchRangeGo_spec (fd : Nat → Except Unit (Option Draw)) :
    ∀ cnt no draws missing draws' missing',
      fetchRangeGo fd cnt no draws missing = .ok (draws', missing') →
      (∀ k, no ≤ k → k < no + cnt →
        (∃ d, fd k = .ok (some d) ∧ mapGet draws' k = some d) ∨
        (fd k = .ok none ∧ mapGet draws' k = mapGet draws k)) ∧
      (∀ k, k < no ∨ no + cnt ≤ k → mapGet draws' k = mapGet draws k) ∧
      (∀ k, k ∈ missing' ↔
        k ∈ missing ∨ (no ≤ k ∧ k < no + cnt ∧ fd k = .ok none)) := by
  intro cnt
  induction cnt with
  | zero =>
    intro no draws missing draws' missing' h
    simp only [fetchRangeGo, Except.ok.injEq, Prod.mk.injEq] at h
    obtain ⟨h1, h2⟩ := h
    subst h1; subst h2
    refine ⟨fun k hk1 hk2 => absurd hk2 (by omega), fun k _ => rfl, fun k => ?_⟩
    constructor
    · exact fun hk => Or.inl hk
    · rintro (hk | ⟨hk1, hk2, _⟩)
      · exact hk
      · omega
  | succ cnt ih =>
    intro no draws missing draws' missing' h
    simp only [fetchRangeGo] at h
    cases hfd : fd no with
    | error e => rw [hfd] at h; simp at h
    | ok od =>
      rw [hfd] at h
      cases od with
      | some d =>
        simp only [] at h
        obtain ⟨ih1, ih2, ih3⟩ := ih (no + 1) (mapSet draws no d) missing draws' missing' h
        refine ⟨?_, ?_, ?_⟩
        · intro k hk1 hk2
          by_cases hkno : k = no
          · subst hkno
            left
            exact ⟨d, hfd, by rw [ih2 k (by omega), mapGet_mapSet_self]⟩
          · rcases ih1 k (by omega) (by omega) with ⟨d', hfd', hget⟩ | ⟨hfd', hget⟩
            · exact Or.inl ⟨d', hfd', hget⟩
            · exact Or.inr ⟨hfd', by rw [hget, mapGet_mapSet_ne draws no k d hkno]⟩
        · intro k hk
          rw [ih2 k (by omega), mapGet_mapSet_ne draws no k d (by omega)]
        · intro k
          rw [ih3 k]
          constructor
          · rintro (hk | ⟨hk1, hk2, hk3⟩)
            · exact Or.inl hk
            · exact Or.inr ⟨by omega, by omega, hk3⟩
          · rintro (hk | ⟨hk1, hk2, hk3⟩)
            · exact Or.inl hk
            · by_cases hkno : k = no
              · subst hkno; rw [hfd] at hk3; simp at hk3
              · exact Or.inr ⟨by omega, by omega, hk3⟩
      | none =>
        simp only [] at h
        obtain ⟨ih1, ih2, ih3⟩ := ih (no + 1) draws (missing ++ [no]) draws' missing' h
        refine ⟨?_, ?_, ?_⟩
        · intro k hk1 hk2
          by_cases hkno : k = no
          · subst hkno
            exact Or.inr ⟨hfd, ih2 k (by omega)⟩
          · exact ih1 k (by omega) (by omega)
        · intro k hk
          exact ih2 k (by omega)
        · intro k
          rw [ih3 k]
          simp only [List.mem_append, List.mem_singleton]
          constructor
          · rintro ((hk | rfl) | ⟨hk1, hk2, hk3⟩)
            · exact Or.inl hk
            · exact Or.inr ⟨le_refl k, by omega, hfd⟩
            · exact Or.inr ⟨by omega, by omega, hk3⟩
          · rintro (hk | ⟨hk1, hk2, hk3⟩)
            · exact Or.inl (Or.inl hk)
            · by_cases hkno : k = no
              · exact Or.inl (Or.inr hkno)
              · exact Or.inr ⟨by omega, by omega, hk3⟩

/-- C1 (amended): after the first completed sync from the initial empty
cache, every integer in `[1, latest]` is recorded in exactly one of the
draws mapping and the `missing` list, and no key of the mapping exceeds
`latest` — in particular the single `fetchRange` over `[1, latest]`
records every number of the range in exactly one of the two.  (The
any-sequence form of the claim is refuted by
`updateCache_inv_counterexample`: each sync rebuilds `missing` from
scratch while fetching only `[latest+1, newLatest]`, so a number missing
in an earlier sync leaves both structures.) -/
theorem updateCache_first_sync_inv (fd : Nat → Except Unit (Option Draw))
    (now : Nat) (c' : CacheState)
    (h : updateCache fd now initCache = .ok c') :
    (∀ n, 1 ≤ n → n ≤ c'.latest →
      ((mapGet c'.draws n).isSome ∧ n ∉ c'.missing.getD []) ∨
      (mapGet c'.draws n = none ∧ n ∈ c'.missing.getD [])) ∧
    (∀ n, (mapGet c'.draws n).isSome → n ≤ c'.latest) := by
  have hb : isBlocked initCache now = false := rfl
  simp only [updateCache, hb, Bool.false_eq_true, if_false] at h
  cases hL : findLatestDraw fd initCache.latest with
  | error e =>
    rw [hL] at h
    simp only [Except.ok.injEq] at h
    subst h
    constructor
    · intro n h1 h2
      simp only [initCache] at h2
      omega
    · intro n hn
      simp [initCache, mapGet] at hn
  | ok L =>
    rw [hL] at h
    simp only [initCache, Nat.lt_irrefl, if_false] at h
    by_cases hSL : 1 ≤ L
    · rw [if_pos hSL] at h
      cases hR : fetchRange fd 1 L [] [] with
      | error e => rw [hR] at h; simp at h
      | ok p =>
        obtain ⟨d', m'⟩ := p
        rw [hR] at h
        simp only [Except.ok.injEq] at h
        subst h
        have hcnt : L + 1 - 1 = L := by omega
        have hspec := fetchRangeGo_spec fd L 1 [] [] d' m'
          (by rw [← hcnt]; exact hR)
        obtain ⟨s1, s2, s3⟩ := hspec
        constructor
        · intro n h1 h2
          simp only at h2 ⊢
          rcases s1 n h1 (by omega) with ⟨d, hfd, hget⟩ | ⟨hfd, hget⟩
          · left
            refine ⟨by rw [hget]; rfl, ?_⟩
            intro hmem
            rcases (s3 n).mp hmem with hk | ⟨_, _, hnone⟩
            · simp at hk
            · rw [hfd] at hnone; simp at hnone
          · right
            refine ⟨by rw [hget]; rfl, ?_⟩
            exact (s3 n).mpr (Or.inr ⟨h1, by omega, hfd⟩)
        · intro n hn
          simp only at hn ⊢
          by_contra hgt
          rw [s2 n (Or.inr (by omega))] at hn
          simp [mapGet] at hn
    · rw [if_neg hSL] at h
      simp only [Except.ok.injEq] at h
      subst h
      constructor
      · intro n h1 h2
        simp only at h2
        omega
      · intro n hn
        simp [mapGet] at hn

/-- First sync of the counterexample scenario: draws 1, 3, 4, 5 fetch
successfully, draw 2 is unfetchable, everything else is not found. -/
def syncOracleA : Nat → Except Unit (Option Draw) :=
  fun n => .ok (if n = 1 ∨ n = 3 ∨ n = 4 ∨ n = 5 then some probeDraw else none)

/-- Second sync of the counterexample scenario: draws up to 7 now exist
upstream, draw 2 is still unfetchable (and is never retried). -/
def syncOracleB : Nat → Except Unit (Option Draw) :=
  fun n => .ok (if 5 ≤ n ∧ n ≤ 7 then some probeDraw else none)

def cacheAfterA : CacheState :=
  { updatedAt := 0, latest := 5,
    draws := [(1, probeDraw), (3, probeDraw), (4, probeDraw), (5, probeDraw)],
    missing := some [2], blockedUntil := none }

def cacheAfterB : CacheState :=
  { updatedAt := 1, latest := 7,
    draws := [(1, probeDraw), (3, probeDraw), (4, probeDraw), (5, probeDraw),
              (6, probeDraw), (7, probeDraw)],
    missing := some [], blockedUntil := none }

/-- C1 counterexample: after the two completed syncs above, draw 2 lies
in `[1, latest] = [1, 7]` but is a key of neither the draws mapping nor
the `missing` list — the claimed invariant fails for sequences of more
than one sync, because `updateCache` rebuilds `missing` from scratch and
never refetches numbers below the previous `latest`. -/
theorem updateCache_inv_counterexample :
    updateCache syncOracleA 0 initCache = .ok cacheAfterA ∧
    updateCache syncOracleB 1 cacheAfterA = .ok cacheAfterB ∧
    1 ≤ 2 ∧ 2 ≤ cacheAfterB.latest ∧ mapGet cacheAfterB.draws 2 = none ∧
    2 ∉ cacheAfterB.missing.getD [] := by decide

/-- The cache produced by a first sync against `syncOracleB` (downward
search from the 1100 default probe lands on 1; draw 1 is unfetchable). -/
def firstSyncState : CacheState :=
  { updatedAt := 0, latest := 1, draws := [], missing := some [1],
    blockedUntil := none }

theorem updateCache_first_sync_inv_witness :
    ((mapGet firstSyncState.draws 1).isSome ∧
      1 ∉ firstSyncState.missing.getD []) ∨
    (mapGet firstSyncState.draws 1 = none ∧
      1 ∈ firstSyncState.missing.getD []) :=
  (updateCache_first_sync_inv syncOracleB 0 firstSyncState (by decide)).1 1
    (by decide) (by decide)

/-! ### What a sync can surface to the served read (C3) -/

/-- C3 (amended): the only failure a sync can surface is an
`HtmlResponseError` raised during the range-fetch phase — whenever
`updateCache` rejects, the locator had already succeeded and the error
is exactly the one `fetchRange` raised (every locator-phase failure is
absorbed: transient errors degrade to `NotFound` inside `fetchDraw` and
a locator `HtmlResponseError` becomes the blocked marker) — and `GET`
fails exactly when that sync rejection occurs. -/
theorem sync_failures_surface_only_from_range :
    (∀ fd now c e, updateCache fd now c = .error e →
      ∃ L, findLatestDraw fd c.latest = .ok L ∧
        (if 0 < c.latest then c.latest + 1 else 1) ≤ L ∧
        fetchRange fd (if 0 < c.latest then c.latest + 1 else 1) L
          c.draws [] = .error e) ∧
    (∀ fd now ib c e, GET fd now ib c = .error e →
      updateCache fd now c = .error e) := by
  constructor
  · intro fd now c e h
    cases e
    by_cases hb : isBlocked c now
    · simp [updateCache, hb] at h
    · rw [Bool.not_eq_true] at hb
      simp only [updateCache, hb, Bool.false_eq_true, if_false] at h
      cases hL : findLatestDraw fd c.latest with
      | error e' => rw [hL] at h; simp at h
      | ok L =>
        rw [hL] at h
        simp only [] at h
        by_cases hs : (if 0 < c.latest then c.latest + 1 else 1) ≤ L
        · rw [if_pos hs] at h
          cases hR : fetchRange fd (if 0 < c.latest then c.latest + 1 else 1) L
              c.draws [] with
          | error e' =>
            cases e'
            exact ⟨L, rfl, hs, hR⟩
          | ok p =>
            obtain ⟨d', m'⟩ := p
            rw [hR] at h
            simp at h
        · rw [if_neg hs] at h
          simp at h
  · intro fd now ib c e h
    cases e
    by_cases hf : now - c.updatedAt < CACHE_TTL_MS
    · simp [GET, hf] at h
    · simp only [GET, hf, if_false] at h
      cases hU : updateCache fd now c with
      | error e' =>
        cases e'
        rfl
      | ok rc => rw [hU] at h; simp at h

/-- An upstream where draws 2 and 3 exist, draw 1 serves the HTML block
page, and everything else is not found.  The locator (probing down from
the 1100 default) never touches draw 1 and returns 3; the range fetch
over `[1, 3]` then hits the anomalous response. -/
def rangeAbortOracle : Nat → Except Unit (Option Draw) :=
  fun n => if n = 1 then .error () else .ok (if n ≤ 3 then some probeDraw else none)

theorem sync_failures_surface_only_from_range_witness :
    ∃ L, findLatestDraw rangeAbortOracle initCache.latest = .ok L ∧
      (if 0 < initCache.latest then initCache.latest + 1 else 1) ≤ L ∧
      fetchRange rangeAbortOracle
        (if 0 < initCache.latest then initCache.latest + 1 else 1) L
        initCache.draws [] = .error () :=
  sync_failures_surface_only_from_range.1 rangeAbortOracle CACHE_TTL_MS initCache ()
    (by decide)

/-- C3 counterexample: with the upstream above, the read endpoint does
not answer with a cache snapshot — the `HtmlResponseError` raised during
range fetching escapes `updateCache` (only the locator call sits inside
the `try`) and `GET` rejects. -/
theorem get_surfaces_range_anomaly :
    GET rangeAbortOracle CACHE_TTL_MS false initCache = .error () := by decide

/-! ### The served `apiBlockedUntil` field (C8) -/

/-- C8 (amended): the served `apiBlockedUntil` is exactly the cache's
`blockedUntil` with `undefined` mapped to `null`.  It is null whenever
`blockedUntil` was never set, but `blockedUntil` is never cleared once
set, so after a block expires the stale timestamp is still served
non-null (refuted claim: see
`get_apiBlockedUntil_expired_counterexample`). -/
theorem get_apiBlockedUntil_mirrors_cache (fd : Nat → Except Unit (Option Draw))
    (now : Nat) (ib : Bool) (c : CacheState) (r : ApiResponse) (c' : CacheState)
    (h : GET fd now ib c = .ok (r, c')) :
    r.apiBlockedUntil = c'.blockedUntil := by
  by_cases hf : now - c.updatedAt < CACHE_TTL_MS
  · simp only [GET, if_pos hf, Except.ok.injEq, Prod.mk.injEq] at h
    obtain ⟨h1, h2⟩ := h
    subst h2
    rw [← h1]
    rfl
  · simp only [GET, hf, if_false] at h
    cases hU : updateCache fd now c with
    | error e => rw [hU] at h; simp at h
    | ok rc =>
      rw [hU] at h
      simp only [Except.ok.injEq, Prod.mk.injEq] at h
      obtain ⟨h1, h2⟩ := h
      subst h2
      rw [← h1]
      rfl

/-- A cache whose block has already expired at request time
(`blockedUntil = 1` in the far past) but was never cleared. -/
def expiredBlockCache : CacheState :=
  { updatedAt := 1000000, latest := 0, draws := [], missing := none,
    blockedUntil := some 1 }

theorem get_apiBlockedUntil_mirrors_cache_witness :
    (respOf expiredBlockCache false).apiBlockedUntil =
      expiredBlockCache.blockedUntil :=
  get_apiBlockedUntil_mirrors_cache anomalousOracle 1000000 false
    expiredBlockCache (respOf expiredBlockCache false) expiredBlockCache
    (by decide)

/-- C8 counterexample: a request served while the upstream is *not*
blocked (the `blockedUntil` timestamp lies in the past) still reports a
non-null `apiBlockedUntil`, because the field is only coalesced from
`undefined`, never compared against `Date.now()`. -/
theorem get_apiBlockedUntil_expired_counterexample :
    isBlocked expiredBlockCache 1000000 = false ∧
    (GET anomalousOracle 1000000 false expiredBlockCache).toOption.map
      (fun p => p.1.apiBlockedUntil) = some (some 1) := by decide

/-! ### Shape of a successfully fetched draw (C9) -/

theorem fetchDrawGo_ok_some (upstream : Nat → RawResp) :
    ∀ fuel attempt d, (fetchDrawGo upstream attempt fuel).1 = .ok (some d) →
      ∃ j, attempt ≤ j ∧ j < attempt + fuel ∧
        fetchDrawOnce (upstream j) = .ok (some d) := by
  intro fuel
  induction fuel with
  | zero => intro attempt d h; simp [fetchDrawGo] at h
  | succ f ih =>
    intro attempt d h
    simp only [fetchDrawGo] at h
    cases ho : fetchDrawOnce (upstream attempt) with
    | ok r =>
      rw [ho] at h
      simp only [] at h
      cases r with
      | none => simp at h
      | some d' =>
        simp only [Except.ok.injEq, Option.some.injEq] at h
        subst h
        exact ⟨attempt, le_refl attempt, by omega, ho⟩
    | error e =>
      cases e with
      | html => rw [ho] at h; simp at h
      | generic =>
        rw [ho] at h
        simp only [] at h
        obtain ⟨j, hj1, hj2, hj3⟩ := ih (attempt + 1) d h
        exact ⟨j, by omega, by omega, hj3⟩

theorem fetchDrawOnce_ok_some (resp : RawResp) (d : Draw)
    (h : fetchDrawOnce resp = .ok (some d)) :
    ∃ p n1 n2 n3 n4 n5 n6 bo, resp = .body (.json p) ∧
      p.returnValue = "success" ∧
      p.drwtNo1 = some n1 ∧ p.drwtNo2 = some n2 ∧ p.drwtNo3 = some n3 ∧
      p.drwtNo4 = some n4 ∧ p.drwtNo5 = some n5 ∧ p.drwtNo6 = some n6 ∧
      p.bnusNo = some bo ∧
      d = { drwNo := p.drwNo, drwNoDate := p.drwNoDate,
            numbers := [n1, n2, n3, n4, n5, n6], bonus := bo } := by
  cases resp with
  | timeout => simp [fetchDrawOnce, fetchJson] at h
  | httpError => simp [fetchDrawOnce, fetchJson] at h
  | body k =>
    cases k with
    | html => simp [fetchDrawOnce, fetchJson] at h
    | invalid => simp [fetchDrawOnce, fetchJson] at h
    | json p =>
      simp only [fetchDrawOnce, fetchJson] at h
      split at h
      · simp at h
      · rename_i hrv
        split at h
        · rename_i n1 n2 n3 n4 n5 n6 bo h1 h2 h3 h4 h5 h6 h7
          simp only [Except.ok.injEq, Option.some.injEq] at h
          exact ⟨p, n1, n2, n3, n4, n5, n6, bo, rfl, not_not.mp hrv,
            h1, h2, h3, h4, h5, h6, h7, h.symm⟩
        · simp at h

theorem fetchDrawOnce_json_total (p : Payload) :
    fetchDrawOnce (.body (.json p)) = .ok none ∨
    ∃ d, fetchDrawOnce (.body (.json p)) = .ok (some d) := by
  simp only [fetchDrawOnce, fetchJson]
  split
  · exact Or.inl rfl
  · split
    · exact Or.inr ⟨_, rfl⟩
    · exact Or.inl rfl

theorem fetchDrawOnce_nan (p : Payload)
    (hnan : p.drwtNo1 = none ∨ p.drwtNo2 = none ∨ p.drwtNo3 = none ∨
      p.drwtNo4 = none ∨ p.drwtNo5 = none ∨ p.drwtNo6 = none ∨
      p.bnusNo = none) :
    fetchDrawOnce (.body (.json p)) = .ok none := by
  rcases fetchDrawOnce_json_total p with hok | ⟨d, hd⟩
  · exact hok
  · exfalso
    obtain ⟨p', n1, n2, n3, n4, n5, n6, bo, hresp, _, h1, h2, h3, h4, h5, h6,
      h7, _⟩ := fetchDrawOnce_ok_some _ d hd
    injection hresp with hk
    injection hk with hp
    subst hp
    rcases hnan with hn | hn | hn | hn | hn | hn | hn <;> simp_all

/-- C9 (amended): every `Draw` returned by a successful `fetchDraw` call
is built verbatim from some attempt's parsed payload whose success flag
is set and whose six winning-number fields and bonus field all coerced
to numbers; a payload with a NaN among those seven fields is reported as
`NotFound` instead.  But no validation of range `[1, 45]`, distinctness,
or draw-number positivity is performed (refuted claim: see
`fetchDraw_no_validation_counterexample`). -/
theorem fetchDraw_success_shape :
    (∀ upstream : Nat → RawResp, ∀ d, (fetchDraw upstream).1 = .ok (some d) →
      ∃ j, j ≤ RETRIES ∧ fetchDrawOnce (upstream j) = .ok (some d)) ∧
    (∀ resp d, fetchDrawOnce resp = .ok (some d) →
      ∃ p n1 n2 n3 n4 n5 n6 bo, resp = .body (.json p) ∧
        p.returnValue = "success" ∧
        p.drwtNo1 = some n1 ∧ p.drwtNo2 = some n2 ∧ p.drwtNo3 = some n3 ∧
        p.drwtNo4 = some n4 ∧ p.drwtNo5 = some n5 ∧ p.drwtNo6 = some n6 ∧
        p.bnusNo = some bo ∧
        d = { drwNo := p.drwNo, drwNoDate := p.drwNoDate,
              numbers := [n1, n2, n3, n4, n5, n6], bonus := bo }) ∧
    (∀ p : Payload, (p.drwtNo1 = none ∨ p.drwtNo2 = none ∨ p.drwtNo3 = none ∨
        p.drwtNo4 = none ∨ p.drwtNo5 = none ∨ p.drwtNo6 = none ∨
        p.bnusNo = none) →
      fetchDrawOnce (.body (.json p)) = .ok none) := by
  refine ⟨?_, fetchDrawOnce_ok_some, fetchDrawOnce_nan⟩
  intro up d h
  obtain ⟨j, hj1, hj2, hj3⟩ := fetchDrawGo_ok_some up (RETRIES + 1) 0 d h
  exact ⟨j, by omega, hj3⟩

def goodPayload : Payload :=
  { returnValue := "success", drwNo := some 42, drwNoDate := "2024-01-06",
    drwtNo1 := some 1, drwtNo2 := some 2, drwtNo3 := some 3,
    drwtNo4 := some 4, drwtNo5 := some 5, drwtNo6 := some 6, bnusNo := some 7 }

def goodDraw : Draw :=
  { drwNo := some 42, drwNoDate := "2024-01-06",
    numbers := [1, 2, 3, 4, 5, 6], bonus := 7 }

theorem fetchDraw_success_shape_witness :
    ∃ p n1 n2 n3 n4 n5 n6 bo,
      RawResp.body (.json goodPayload) = RawResp.body (.json p) ∧
      p.returnValue = "success" ∧
      p.drwtNo1 = some n1 ∧ p.drwtNo2 = some n2 ∧ p.drwtNo3 = some n3 ∧
      p.drwtNo4 = some n4 ∧ p.drwtNo5 = some n5 ∧ p.drwtNo6 = some n6 ∧
      p.bnusNo = some bo ∧
      goodDraw = { drwNo := p.drwNo, drwNoDate := p.drwNoDate,
                   numbers := [n1, n2, n3, n4, n5, n6], bonus := bo } :=
  fetchDraw_success_shape.2.1 (.body (.json goodPayload)) goodDraw (by decide)

def badPayload : Payload :=
  { returnValue := "success", drwNo := some (-3), drwNoDate := "d",
    drwtNo1 := some 50, drwtNo2 := some 50, drwtNo3 := some 50,
    drwtNo4 := some 50, drwtNo5 := some 50, drwtNo6 := some 50,
    bnusNo := some 50 }

def badDraw : Draw :=
  { drwNo := some (-3), drwNoDate := "d",
    numbers := [50, 50, 50, 50, 50, 50], bonus := 50 }

/-- C9 counterexample: a successful `fetchDraw` can return a `Draw`
whose six numbers are all 50 (outside `[1, 45]` and not distinct), whose
bonus is 50, and whose draw number is negative — `fetchDrawOnce` only
rejects NaN, it validates nothing else. -/
theorem fetchDraw_no_validation_counterexample :
    (fetchDraw fun _ => RawResp.body (.json badPayload)).1 = .ok (some badDraw) ∧
    ¬ (∀ n ∈ badDraw.numbers, 1 ≤ n ∧ n ≤ 45) ∧
    ¬ badDraw.numbers.Nodup ∧
    ¬ (1 ≤ badDraw.bonus ∧ badDraw.bonus ≤ 45) ∧
    badDraw.drwNo = some (-3) ∧ (-3 : Int) < 1 := by decide

/-! ### The served response over an empty cache (C10) -/

theorem sortEntries_baseCounts : sortEntries baseCounts = baseCounts := by decide

theorem buildRanking_nil (ib : Bool) :
    buildRanking [] ib =
      { counts := baseCounts, ranking := baseCounts,
        top6 := (baseCounts.take 6).map CountEntry.num,
        next6 := ((baseCounts.drop 6).take 6).map CountEntry.num,
        top18 := (baseCounts.take 18).map CountEntry.num,
        hasData := false } := by
  show buildRanking [] false = _
  decide

theorem respOf_empty (cc : CacheState) (ib : Bool) (hcc : cc.draws = []) :
    (respOf cc ib).hasData = false ∧ (respOf cc ib).totalDraws = 0 ∧
    (respOf cc ib).latestDate = none ∧ (respOf cc ib).counts = baseCounts ∧
    (respOf cc ib).ranking = baseCounts := by
  unfold respOf
  rw [hcc]
  simp [buildRanking_nil, mapGet]

/-- C10: whenever the cache state a `GET` response is built from has an
empty draws mapping (for example the very first request arriving while
the upstream is blocked), the response is still well formed: `hasData`
is false, `totalDraws` is 0, `latestDate` is null, `counts` is exactly
the 45 entries for numbers 1..45 with count 0, and `ranking` lists those
same 45 entries in ascending number order (= `baseCounts`). -/
theorem get_empty_cache_shape (fd : Nat → Except Unit (Option Draw))
    (now : Nat) (ib : Bool) (c : CacheState) (r : ApiResponse)
    (c' : CacheState) (h : GET fd now ib c = .ok (r, c'))
    (hd : c'.draws = []) :
    r.hasData = false ∧ r.totalDraws = 0 ∧ r.latestDate = none ∧
    r.counts = baseCounts ∧ r.ranking = baseCounts := by
  by_cases hf : now - c.updatedAt < CACHE_TTL_MS
  · simp only [GET, if_pos hf, Except.ok.injEq, Prod.mk.injEq] at h
    obtain ⟨h1, h2⟩ := h
    subst h2
    rw [← h1]
    exact respOf_empty c ib hd
  · simp only [GET, hf, if_false] at h
    cases hU : updateCache fd now c with
    | error e => rw [hU] at h; simp at h
    | ok rc =>
      rw [hU] at h
      simp only [Except.ok.injEq, Prod.mk.injEq] at h
      obtain ⟨h1, h2⟩ := h
      subst h2
      rw [← h1]
      exact respOf_empty rc ib hd

theorem get_empty_cache_shape_witness :
    (respOf initCache false).hasData = false ∧
    (respOf initCache false).totalDraws = 0 ∧
    (respOf initCache false).latestDate = none ∧
    (respOf initCache false).counts = baseCounts ∧
    (respOf initCache false).ranking = baseCounts :=
  get_empty_cache_shape anomalousOracle 0 false initCache
    (respOf initCache false) initCache (by decide) rfl

/-! ### Single-flight coordination of concurrent GET callers (C4)

`updateCache` deduplicates concurrent syncs through `cache.inFlight`
(route.ts lines 198-237) and `GET` decides between the fresh cache and
`await updateCache()` (lines 277-279).  Node's event loop runs each
request handler to completion up to its first `await`, which makes the
following segments atomic:

* a caller's *decide* segment: the `isFresh` test in `GET`, the
  `cache.inFlight` test in `updateCache`, and — when no sync is in
  flight — creating the sync IIFE, which runs synchronously through the
  block check and into `findLatestDraw` up to the first upstream fetch,
  and assigning the promise to `cache.inFlight`.  A caller therefore
  either gets served the fresh cache, joins the in-flight sync
  (`return cache.inFlight`, taken *before* the try/finally), or starts a
  new sync — with no interleaving inside the segment;
* the sync's *completion* segment: publishing the cache fields
  (`updatedAt` makes the cache fresh) and resolving the promise;
* each awaiting caller's *resumption* segment; for the starting caller
  this runs `finally { cache.inFlight = undefined }` before `updateCache`
  returns.

The model below is that transition system, for one staleness episode
beginning with a stale, unblocked cache and no sync in flight (the sync
is the one that invokes the locator).  `started` counts sync starts,
i.e. locator invocations; a `done r` caller returned the result of sync
`r`. -/

namespace SingleFlight

/-- Program counter of one concurrent `GET` caller. -/
inductive Pc
  | idle
  | joined (sid : Nat) (isInit : Bool)
  | done (res : Nat) (wasInit : Bool)
deriving DecidableEq, Repr

/-- The shared state: cache freshness, the version (id of the last
completed sync) its data reflects, the in-flight handle, the number of
syncs started (= locator invocations), which syncs have resolved, and
the callers. -/
structure SysState where
  fresh : Bool
  version : Option Nat
  inFlight : Option Nat
  started : Nat
  resolvedSync : Nat → Bool
  callers : Nat → Pc

/-- Pointwise function update. -/
def upd {α : Type} (f : Nat → α) (i : Nat) (v : α) : Nat → α :=
  fun j => if j = i then v else f j

theorem upd_eq {α : Type} (f : Nat → α) (i : Nat) (v : α) : upd f i v i = v := by
  simp [upd]

theorem upd_ne {α : Type} (f : Nat → α) (i j : Nat) (v : α) (h : j ≠ i) :
    upd f i v j = f j := by
  simp [upd, h]

/-- One atomic event-loop segment (see the section comment). -/
inductive Step : SysState → SysState → Prop
  | freshServe (s : SysState) (i v : Nat) (h1 : s.callers i = .idle)
      (h2 : s.fresh = true) (h3 : s.version = some v) :
      Step s { s with callers := upd s.callers i (.done v false) }
  | join (s : SysState) (i sid : Nat) (h1 : s.callers i = .idle)
      (h2 : s.fresh = false) (h3 : s.inFlight = some sid) :
      Step s { s with callers := upd s.callers i (.joined sid false) }
  | start (s : SysState) (i : Nat) (h1 : s.callers i = .idle)
      (h2 : s.fresh = false) (h3 : s.inFlight = none) :
      Step s { s with inFlight := some s.started, started := s.started + 1,
                      callers := upd s.callers i (.joined s.started true) }
  | resolve (s : SysState) (sid : Nat) (h1 : s.inFlight = some sid)
      (h2 : s.resolvedSync sid = false) :
      Step s { s with fresh := true, version := some sid,
                      resolvedSync := upd s.resolvedSync sid true }
  | finishJoiner (s : SysState) (i sid : Nat)
      (h1 : s.callers i = .joined sid false) (h2 : s.resolvedSync sid = true) :
      Step s { s with callers := upd s.callers i (.done sid false) }
  | finishInit (s : SysState) (i sid : Nat)
      (h1 : s.callers i = .joined sid true) (h2 : s.resolvedSync sid = true) :
      Step s { s with inFlight := none,
                      callers := upd s.callers i (.done sid true) }

/-- Start of a staleness episode: stale cache, no sync in flight, no
sync started yet, any number of callers about to arrive. -/
def init : SysState :=
  { fresh := false, version := none, inFlight := none, started := 0,
    resolvedSync := fun _ => false, callers := fun _ => .idle }

/-- States reachable in the episode under any interleaving. -/
inductive Reach : SysState → Prop
  | base : Reach init
  | step {s s' : SysState} (h : Reach s) (hs : Step s s') : Reach s'

/-- The inductive invariant: at most one sync ever starts, everything
refers to sync 0, freshness implies sync 0 completed, and a returned
initiator has cleared the handle. -/
structure Inv (s : SysState) : Prop where
  started_le : s.started ≤ 1
  inflight_inv : ∀ k, s.inFlight = some k → k = 0 ∧ s.started = 1
  version_inv : ∀ v, s.version = some v → v = 0 ∧ s.started = 1
  fresh_inv : s.fresh = true → s.version = some 0
  resolved_inv : ∀ k, s.resolvedSync k = true →
    k = 0 ∧ s.started = 1 ∧ s.fresh = true
  joined_inv : ∀ i sid b, s.callers i = .joined sid b →
    sid = 0 ∧ s.started = 1
  done_inv : ∀ i r w, s.callers i = .done r w →
    r = 0 ∧ s.started = 1 ∧ s.fresh = true ∧ (w = true → s.inFlight = none)
  started_src : s.started = 1 →
    s.inFlight = some 0 ∨ ∃ i, s.callers i = .done 0 true

theorem inv_init : Inv init := by
  refine ⟨by simp [init], ?_, ?_, ?_, ?_, ?_, ?_, ?_⟩
  · intro k hk; simp [init] at hk
  · intro v hv; simp [init] at hv
  · intro hf; simp [init] at hf
  · intro k hk; simp [init] at hk
  · intro i sid b hc; simp [init] at hc
  · intro i r w hc; simp [init] at hc
  · intro hst; simp [init] at hst


theorem inv_step {s s' : SysState} (hs : Inv s) (hstep : Step s s') :
    Inv s' := by
  cases hstep with
  | freshServe i v h1 h2 h3 =>
    obtain ⟨hv0, hs1⟩ := hs.version_inv v h3
    refine ⟨?_, ?_, ?_, ?_, ?_, ?_, ?_, ?_⟩ <;> dsimp only
    · exact hs.started_le
    · exact hs.inflight_inv
    · exact hs.version_inv
    · exact hs.fresh_inv
    · exact hs.resolved_inv
    · intro j sid b hj
      by_cases hji : j = i
      · subst hji; rw [upd_eq] at hj; simp at hj
      · rw [upd_ne _ _ _ _ hji] at hj
        exact hs.joined_inv j sid b hj
    · intro j r w hj
      by_cases hji : j = i
      · subst hji
        rw [upd_eq] at hj
        injection hj with hr hw
        refine ⟨by omega, hs1, h2, ?_⟩
        intro hwt; rw [← hw] at hwt; simp at hwt
      · rw [upd_ne _ _ _ _ hji] at hj
        exact hs.done_inv j r w hj
    · intro hst
      rcases hs.started_src hst with hif | ⟨j, hj⟩
      · exact Or.inl hif
      · refine Or.inr ⟨j, ?_⟩
        have hji : j ≠ i := by intro he; rw [he, h1] at hj; simp at hj
        rw [upd_ne _ _ _ _ hji]; exact hj
  | join i sid h1 h2 h3 =>
    obtain ⟨hsid0, hs1⟩ := hs.inflight_inv sid h3
    refine ⟨?_, ?_, ?_, ?_, ?_, ?_, ?_, ?_⟩ <;> dsimp only
    · exact hs.started_le
    · exact hs.inflight_inv
    · exact hs.version_inv
    · exact hs.fresh_inv
    · exact hs.resolved_inv
    · intro j sid' b hj
      by_cases hji : j = i
      · subst hji
        rw [upd_eq] at hj
        injection hj with hsid hb
        exact ⟨by omega, hs1⟩
      · rw [upd_ne _ _ _ _ hji] at hj
        exact hs.joined_inv j sid' b hj
    · intro j r w hj
      by_cases hji : j = i
      · subst hji; rw [upd_eq] at hj; simp at hj
      · rw [upd_ne _ _ _ _ hji] at hj
        exact hs.done_inv j r w hj
    · intro hst
      rcases hs.started_src hst with hif | ⟨j, hj⟩
      · exact Or.inl hif
      · refine Or.inr ⟨j, ?_⟩
        have hji : j ≠ i := by intro he; rw [he, h1] at hj; simp at hj
        rw [upd_ne _ _ _ _ hji]; exact hj
  | start i h1 h2 h3 =>
    have hst0 : s.started = 0 := by
      by_cases hs1 : s.started = 1
      · exfalso
        rcases hs.started_src hs1 with hif | ⟨j, hj⟩
        · rw [h3] at hif; simp at hif
        · have hfr := (hs.done_inv j 0 true hj).2.2.1
          rw [h2] at hfr; simp at hfr
      · have := hs.started_le; omega
    refine ⟨?_, ?_, ?_, ?_, ?_, ?_, ?_, ?_⟩ <;> dsimp only
    · omega
    · intro k hk
      injection hk with hk
      omega
    · intro v hv
      have := (hs.version_inv v hv).2
      omega
    · intro hf
      rw [h2] at hf; simp at hf
    · intro k hk
      have := (hs.resolved_inv k hk).2.1
      exact absurd this (by omega)
    · intro j sid b hj
      by_cases hji : j = i
      · subst hji
        rw [upd_eq] at hj
        injection hj with hsid hb
        omega
      · rw [upd_ne _ _ _ _ hji] at hj
        exact absurd (hs.joined_inv j sid b hj).2 (by omega)
    · intro j r w hj
      by_cases hji : j = i
      · subst hji; rw [upd_eq] at hj; simp at hj
      · rw [upd_ne _ _ _ _ hji] at hj
        exact absurd (hs.done_inv j r w hj).2.1 (by omega)
    · intro _
      refine Or.inl ?_
      rw [hst0]
  | resolve sid h1 h2 =>
    obtain ⟨hsid0, hs1⟩ := hs.inflight_inv sid h1
    refine ⟨?_, ?_, ?_, ?_, ?_, ?_, ?_, ?_⟩ <;> dsimp only
    · exact hs.started_le
    · exact hs.inflight_inv
    · intro v hv
      injection hv with hv
      exact ⟨by omega, hs1⟩
    · intro _
      rw [hsid0]
    · intro k hk
      by_cases hks : k = sid
      · subst hks
        exact ⟨by omega, hs1, rfl⟩
      · rw [upd_ne _ _ _ _ hks] at hk
        obtain ⟨hk0, hks1, _⟩ := hs.resolved_inv k hk
        exact ⟨hk0, hks1, rfl⟩
    · intro j sid' b hj
      exact hs.joined_inv j sid' b hj
    · intro j r w hj
      obtain ⟨hr0, hjs1, _, hw⟩ := hs.done_inv j r w hj
      exact ⟨hr0, hjs1, rfl, hw⟩
    · intro _
      refine Or.inl ?_
      rw [h1, hsid0]
  | finishJoiner i sid h1 h2 =>
    obtain ⟨hsid0, hs1, hfr⟩ := hs.resolved_inv sid h2
    refine ⟨?_, ?_, ?_, ?_, ?_, ?_, ?_, ?_⟩ <;> dsimp only
    · exact hs.started_le
    · exact hs.inflight_inv
    · exact hs.version_inv
    · exact hs.fresh_inv
    · exact hs.resolved_inv
    · intro j sid' b hj
      by_cases hji : j = i
      · subst hji; rw [upd_eq] at hj; simp at hj
      · rw [upd_ne _ _ _ _ hji] at hj
        exact hs.joined_inv j sid' b hj
    · intro j r w hj
      by_cases hji : j = i
      · subst hji
        rw [upd_eq] at hj
        injection hj with hr hw
        refine ⟨by omega, hs1, hfr, ?_⟩
        intro hwt; rw [← hw] at hwt; simp at hwt
      · rw [upd_ne _ _ _ _ hji] at hj
        exact hs.done_inv j r w hj
    · intro hst
      rcases hs.started_src hst with hif | ⟨j, hj⟩
      · exact Or.inl hif
      · refine Or.inr ⟨j, ?_⟩
        have hji : j ≠ i := by intro he; rw [he, h1] at hj; simp at hj
        rw [upd_ne _ _ _ _ hji]; exact hj
  | finishInit i sid h1 h2 =>
    obtain ⟨hsid0, hs1, hfr⟩ := hs.resolved_inv sid h2
    refine ⟨?_, ?_, ?_, ?_, ?_, ?_, ?_, ?_⟩ <;> dsimp only
    · exact hs.started_le
    · intro k hk; simp at hk
    · exact hs.version_inv
    · exact hs.fresh_inv
    · intro k hk
      obtain ⟨hk0, hks1, hkf⟩ := hs.resolved_inv k hk
      exact ⟨hk0, hks1, hkf⟩
    · intro j sid' b hj
      by_cases hji : j = i
      · subst hji; rw [upd_eq] at hj; simp at hj
      · rw [upd_ne _ _ _ _ hji] at hj
        exact hs.joined_inv j sid' b hj
    · intro j r w hj
      by_cases hji : j = i
      · subst hji
        rw [upd_eq] at hj
        injection hj with hr hw
        exact ⟨by omega, hs1, hfr, fun _ => rfl⟩
      · rw [upd_ne _ _ _ _ hji] at hj
        obtain ⟨hr0, hjs1, hjf, _⟩ := hs.done_inv j r w hj
        exact ⟨hr0, hjs1, hjf, fun _ => rfl⟩
    · intro _
      refine Or.inr ⟨i, ?_⟩
      rw [upd_eq, hsid0]

theorem reach_inv (s : SysState) (h : Reach s) : Inv s := by
  induction h with
  | base => exact inv_init
  | step _ hstep ih => exact inv_step ih hstep

/-- C4: under every interleaving of any number of concurrent callers
arriving during one staleness episode, at most one sync — one locator
invocation — is ever started; every caller that has returned received
the result of that single sync 0 (so whenever any caller has returned,
exactly one sync ran); and once the starting caller has returned, the
in-flight handle is cleared, so a later staleness episode can start a
new sync. -/
theorem single_flight (s : SysState) (h : Reach s) :
    s.started ≤ 1 ∧
    (∀ i r w, s.callers i = .done r w →
      r = 0 ∧ s.started = 1 ∧ (w = true → s.inFlight = none)) := by
  have hinv : Inv s := reach_inv s h
  refine ⟨hinv.started_le, fun i r w hc => ?_⟩
  obtain ⟨hr, hs1, _, hw⟩ := hinv.done_inv i r w hc
  exact ⟨hr, hs1, hw⟩

/-- End state of a concrete two-caller episode: caller 0 starts the
sync, caller 1 joins it, the sync resolves, both callers return. -/
def traceEnd : SysState :=
  { fresh := true, version := some 0, inFlight := none, started := 1,
    resolvedSync := upd (fun _ => false) 0 true,
    callers := upd (upd (upd (upd (fun _ => Pc.idle) 0 (.joined 0 true))
      1 (.joined 0 false)) 1 (.done 0 false)) 0 (.done 0 true) }

theorem single_flight_witness :
    traceEnd.started ≤ 1 ∧
    (0 = 0 ∧ traceEnd.started = 1 ∧ (true = true → traceEnd.inFlight = none)) := by
  have hr : Reach traceEnd :=
    Reach.step (Reach.step (Reach.step (Reach.step (Reach.step Reach.base
      (Step.start init 0 rfl rfl rfl)) (Step.join _ 1 0 rfl rfl rfl))
      (Step.resolve _ 0 rfl rfl)) (Step.finishJoiner _ 1 0 rfl rfl))
      (Step.finishInit _ 0 0 rfl rfl)
  exact ⟨(single_flight traceEnd hr).1,
    (single_flight traceEnd hr).2 0 0 true rfl⟩

end SingleFlight
